import Mathlib

/-!
Shallow embedding of the NixieClock WWVB receiver (src/NixieClock.ino,
src/ScoreBoard.cpp) and proofs about its receiver pipeline.

Machine integers are modelled as `Nat` with explicit reduction modulo the
type width (`% 256` for `uint8_t`, `% 65536` for `uint16_t` / AVR `unsigned
int` / `unsigned short`, `% 4294967296` for `uint32_t` / AVR `unsigned
long`).  The signed 16-bit accumulator is modelled as `Int` with explicit
two's-complement wrapping.  Fallible or stateful code becomes explicit
state passing.
-/

namespace NixieClock

/-- Modulus of `uint8_t`. -/
def U8 : Nat := 256

/-- Modulus of `uint16_t` (and AVR `unsigned int` / `unsigned short`). -/
def U16 : Nat := 65536

/-- Modulus of `uint32_t` (and AVR `unsigned long`). -/
def U32 : Nat := 4294967296

/-- Two's-complement wrap of an integer into `int16_t` range. -/
def wrapI16 (x : Int) : Int := (x + 32768) % 65536 - 32768

/-! ## muldiv (src/NixieClock.ino lines 863-888)

`uint32_t muldiv(uint32_t a, uint32_t b, uint32_t c)` computes `(a*b)/c` by
the ancient-Egyptian multiplication scheme.  Every C arithmetic operation
is on `uint32_t`, so every addition and left shift is taken mod `U32`;
comparisons and subtractions are on the wrapped values. -/

/-- The `while (a)` loop body of `muldiv`, with state `(a, q, r, qn, rn)`.
Loop order follows the source: process the low bit of `a` (add `qn`/`rn`
into `q`/`r` with carry correction), then halve `a`, double `qn`/`rn`
with reduction of `rn` by `c`. -/
def muldivLoop (a q r qn rn c : Nat) : Nat :=
  if _h : a = 0 then q
  else
    let qr :=
      if a % 2 = 1 then
        let q1 := (q + qn) % U32
        let r1 := (r + rn) % U32
        if r1 ≥ c then ((q1 + 1) % U32, r1 - c) else (q1, r1)
      else (q, r)
    let qn1 := qn * 2 % U32
    let rn1 := rn * 2 % U32
    if rn1 ≥ c then muldivLoop (a / 2) qr.1 qr.2 ((qn1 + 1) % U32) (rn1 - c) c
    else muldivLoop (a / 2) qr.1 qr.2 qn1 rn1 c
termination_by a
decreasing_by
  all_goals exact Nat.div_lt_self (Nat.pos_of_ne_zero _h) (by omega)

/-- `muldiv` itself: `q = r = 0`, `qn = b / c`, `rn = b % c`, then the loop. -/
def muldiv (a b c : Nat) : Nat := muldivLoop a 0 0 (b / c) (b % c) c

/-! ## tickTime (src/NixieClock.ino lines 1200-1257) -/

/-- The `tod_*` time-of-day globals.  `ticks`, `seconds`, `minutes`,
`hours` are `unsigned short`; `day` and `year` are `unsigned int` (16 bit
on AVR). -/
structure Tod where
  ticks : Nat
  seconds : Nat
  minutes : Nat
  hours : Nat
  day : Nat
  year : Nat
  isleapminute : Bool
  isleapyear : Bool
  fix : Bool
  secondChanged : Bool
  minuteChanged : Bool
deriving Repr, DecidableEq

/-- `tickTime()`.  Returns the updated time of day and a flag that is true
exactly when the display-blanking branch ran (`resetNixies(); updateNixies();`,
the latter transferring six bytes to the display shift register over SPI). -/
def tickTime (t0 : Tod) : Tod × Bool :=
  let tk := (t0.ticks + 1) % U16
  let blank := (!t0.fix) && decide (tk > 45)
  if tk < 60 then ({ t0 with ticks := tk }, blank)
  else
    let t1 := { t0 with secondChanged := true, ticks := 0,
                        seconds := (t0.seconds + 1) % U16 }
    let minuteLength := if t1.isleapminute then 61 else 60
    if t1.seconds < minuteLength then (t1, blank)
    else
      let t2 := { t1 with isleapminute := false, seconds := 0,
                          minutes := (t1.minutes + 1) % U16,
                          minuteChanged := true }
      if t2.minutes < 60 then (t2, blank)
      else
        let t3 := { t2 with minutes := 0, hours := (t2.hours + 1) % U16 }
        if t3.hours < 24 then (t3, blank)
        else
          let t4 := { t3 with hours := 0, day := (t3.day + 1) % U16 }
          let yearLength := if t4.isleapyear then 366 else 365
          if t4.day < yearLength then (t4, blank)
          else ({ t4 with day := 1, year := (t4.year + 1) % U16 }, blank)

/-! ## configureFromMemory (src/NixieClock.ino lines 1496-1533)

The stored record is `(version : uint8_t, scaledCounts : uint32_t)`.  The
function first loads the compile-time defaults `33333` and `21/64`, then
returns early (keeping the defaults) when the version is not 1 or 2.  The
range check on `scaledCounts` present in an earlier revision is commented
out in the source.  Result is the pair
`(tick_interval_cycles, tick_frac_numerator)`. -/
def configureFromMemory (version scaledCounts : Nat) : Nat × Nat :=
  if version < 1 ∨ version > 2 then (33333, 21)
  else if version = 1 then (scaledCounts / 16 % U16, scaledCounts % 16 * 4 % U8)
  else (scaledCounts / 64 % U16, scaledCounts % 64 % U8)

/-! ## Correlation templates (src/NixieClock.ino lines 210-222)

Byte 0 holds the most recent samples (LSB newest), byte 9 the oldest
(MSB oldest). -/

/-- Correlation template for a ZERO symbol. -/
def PATTERN_ZERO : List Nat := [0xff, 0x03, 0x00, 0x00, 0x00, 0x00, 0x00, 0xfc, 0x3f, 0x00]

/-- Correlation template for a ONE symbol. -/
def PATTERN_ONE : List Nat := [0xff, 0x03, 0x00, 0x00, 0x00, 0xff, 0xff, 0xff, 0x3f, 0x00]

/-- Correlation template for a MARKER symbol. -/
def PATTERN_MARKER : List Nat := [0xff, 0x03, 0xc0, 0xff, 0xff, 0xff, 0xff, 0xff, 0x3f, 0x00]

/-- The eight bits of a byte, most significant first. -/
def byteBitsMSB (b : Nat) : List Nat :=
  [b / 128 % 2, b / 64 % 2, b / 32 % 2, b / 16 % 2, b / 8 % 2, b / 4 % 2, b / 2 % 2, b % 2]

/-- An 80-bit register or template read from head (oldest bit, MSB of byte 9)
to tail (most recent bit, LSB of byte 0). -/
def headToTailBits (p : List Nat) : List Nat := (p.reverse.map byteBitsMSB).flatten

/-! ## Sample register and correlator
(src/NixieClock.ino lines 205-208, 1092-1157, 1160-1198)

`volatile uint8_t samples[10]` is an 80-bit shift register: offset 0 bit 0
holds the most recent sample, offset 9 bit 7 the oldest.  `shiftSample`
(assembly in the source) shifts the new bit into the carry (`lsr %2`) and
then rotates each of the ten bytes left through carry, byte 0 first. -/

/-- Rotate-through-carry chain over the sample bytes: each byte becomes
`(2*b + carryIn) % 256` and passes its old top bit on as the next carry. -/
def rolChain (carry : Nat) : List Nat → List Nat
  | [] => []
  | b :: rest => (2 * b + carry) % U8 :: rolChain ((2 * b + carry) / U8) rest

/-- `shiftSample(value)`: shift the LSB of `value` into the register. -/
def shiftSample (value : Nat) (samples : List Nat) : List Nat :=
  rolChain (value % 2) samples

/-- Shift a whole bit sequence in, oldest bit first. -/
def shiftSamples (bits : List Nat) (samples : List Nat) : List Nat :=
  bits.foldl (fun s b => shiftSample b s) samples

/-- The 256-entry popcount lookup table `arity` (src lines 1163-1183). -/
def arity : List Nat :=
  [0, 1, 1, 2, 1, 2, 2, 3, 1, 2, 2, 3, 2, 3, 3, 4,
   1, 2, 2, 3, 2, 3, 3, 4, 2, 3, 3, 4, 3, 4, 4, 5,
   1, 2, 2, 3, 2, 3, 3, 4, 2, 3, 3, 4, 3, 4, 4, 5,
   2, 3, 3, 4, 3, 4, 4, 5, 3, 4, 4, 5, 4, 5, 5, 6,
   1, 2, 2, 3, 2, 3, 3, 4, 2, 3, 3, 4, 3, 4, 4, 5,
   2, 3, 3, 4, 3, 4, 4, 5, 3, 4, 4, 5, 4, 5, 5, 6,
   2, 3, 3, 4, 3, 4, 4, 5, 3, 4, 4, 5, 4, 5, 5, 6,
   3, 4, 4, 5, 4, 5, 5, 6, 4, 5, 5, 6, 5, 6, 6, 7,
   1, 2, 2, 3, 2, 3, 3, 4, 2, 3, 3, 4, 3, 4, 4, 5,
   2, 3, 3, 4, 3, 4, 4, 5, 3, 4, 4, 5, 4, 5, 5, 6,
   2, 3, 3, 4, 3, 4, 4, 5, 3, 4, 4, 5, 4, 5, 5, 6,
   3, 4, 4, 5, 4, 5, 5, 6, 4, 5, 5, 6, 5, 6, 6, 7,
   2, 3, 3, 4, 3, 4, 4, 5, 3, 4, 4, 5, 4, 5, 5, 6,
   3, 4, 4, 5, 4, 5, 5, 6, 4, 5, 5, 6, 5, 6, 6, 7,
   3, 4, 4, 5, 4, 5, 5, 6, 4, 5, 5, 6, 5, 6, 6, 7,
   4, 5, 5, 6, 5, 6, 6, 7, 5, 6, 6, 7, 6, 7, 7, 8]

/-- `score(pattern)`: byte-wise XOR with the register, complement
(truncated to `uint8_t` when used as the table index), table lookup, sum.
The source loops `i = 0..9` over `samples` and `pattern`. -/
def score (samples pattern : List Nat) : Nat :=
  (List.zipWith (fun s p => arity.getD (255 ^^^ (s ^^^ p)) 0) samples pattern).sum

/-- Reference popcount, structural in a fuel argument so that it reduces. -/
def popCountAux : Nat → Nat → Nat
  | 0, _ => 0
  | fuel + 1, n => if n = 0 then 0 else n % 2 + popCountAux fuel (n / 2)

/-- Number of set bits of a natural number. -/
def popCount (n : Nat) : Nat := popCountAux n n

/-- Popcount of the bitwise XOR of two ten-byte quantities, summed
byte-wise (the 80-bit XOR popcount of register and template). -/
def xorPopCount (samples pattern : List Nat) : Nat :=
  (List.zipWith (fun s p => popCount (s ^^^ p)) samples pattern).sum

/-- A list of bytes is valid when every entry fits `uint8_t`. -/
def bytesValid (l : List Nat) : Prop := ∀ b ∈ l, b < U8

instance (l : List Nat) : Decidable (bytesValid l) := by
  unfold bytesValid; infer_instance

/-- Value of a byte list read as a little-endian natural number. -/
def bytesToNat : List Nat → Nat
  | [] => 0
  | b :: rest => b + U8 * bytesToNat rest

/-- Value of a bit list read most-significant-first. -/
def bitsToNat (bits : List Nat) : Nat := bits.foldl (fun acc b => 2 * acc + b) 0

/-! ## Symbol stream (src/NixieClock.ino lines 890-932)

`char symbolStream[60]`: position 0 oldest, 59 newest.  `shiftSymbol`
shifts left by one, scores the shifted stream during the same loop
(marker positions countdown), then checks position 0 and the incoming
symbol separately, and raises `valid_frame_flag` when the score is 60. -/

/-- The scoring part of the shift loop (`for i = 0..58`): the countdown is
decremented first; when it hits 0 the (already shifted) position is
checked for `'M'` and the countdown restarts at 10, otherwise the position
is checked for `'0'` or `'1'`. -/
def shiftScoreLoop : List Char → Nat → Nat
  | [], _ => 0
  | c :: rest, k =>
    let k1 := k - 1
    if k1 = 0 then (if c = 'M' then 1 else 0) + shiftScoreLoop rest 10
    else (if c = '0' ∨ c = '1' then 1 else 0) + shiftScoreLoop rest k1

/-- `shiftSymbol(newSymbol)`: returns the post-shift stream, the computed
frame-alignment score and whether `valid_frame_flag` was raised
(`score == 60`). -/
def shiftSymbol (newSymbol : Char) (stream : List Char) : List Char × Nat × Bool :=
  let shifted := stream.drop 1
  let s1 := shiftScoreLoop shifted 10
  let s2 := s1 + (if shifted.getD 0 ' ' = 'M' then 1 else 0)
  let s3 := s2 + (if newSymbol = 'M' then 1 else 0)
  (shifted ++ [newSymbol], s3, decide (s3 = 60))

/-- Specification-side predicate (from the claim's words): every position
of the 60-slot stream in {0, 9, 19, 29, 39, 49, 59} holds `'M'` and every
other position holds `'0'` or `'1'`. -/
def frameAlignedSpec (u : List Char) : Prop :=
  ∀ i < 60, if i % 10 = 9 ∨ i = 0 then u.getD i ' ' = 'M'
            else u.getD i ' ' = '0' ∨ u.getD i ' ' = '1'

instance (u : List Char) : Decidable (frameAlignedSpec u) := by
  unfold frameAlignedSpec; infer_instance

/-- The frame condition the code's scoring actually enforces: positions
9, 19, 29, 39, 49, 59 hold `'M'`, the other positions from 1 to 58 hold
`'0'` or `'1'`, and position 0 holds any of `'M'`, `'0'`, `'1'`. -/
def frameAlignedCode (u : List Char) : Prop :=
  (∀ i < 60, 1 ≤ i → i % 10 = 9 → u.getD i ' ' = 'M') ∧
  (∀ i < 60, 1 ≤ i → i % 10 ≠ 9 → u.getD i ' ' = '0' ∨ u.getD i ' ' = '1') ∧
  (u.getD 0 ' ' = 'M' ∨ u.getD 0 ' ' = '0' ∨ u.getD 0 ' ' = '1')

instance (u : List Char) : Decidable (frameAlignedCode u) := by
  unfold frameAlignedCode; infer_instance

/-- Specification-side helper: what the scoring loop expects of a slot
whose countdown residue is `m`: a marker when `m = 9`, data otherwise. -/
def slotOK (m : Nat) (ch : Char) : Prop :=
  if m = 9 then ch = 'M' else ch = '0' ∨ ch = '1'

/-! ## ScoreBoard (src/ScoreBoard.cpp, src/ScoreBoard.h)

Eleven 8-bit slots; `shiftScore` shifts the history (slot 0 newest) and
recomputes the cached peak by a strict-greater scan from slot 0. -/

structure ScoreBoard where
  slots : List Nat
  peakValue : Nat
  peakIndex : Nat
deriving Repr, DecidableEq

/-- Peak scan `for (i = 1; i < size; i++) if (slots[i] > peakValue) ...`. -/
def peakScan : List Nat → Nat → Nat × Nat → Nat × Nat
  | [], _, p => p
  | x :: rest, i, p =>
    if x > p.1 then peakScan rest (i + 1) (x, i) else peakScan rest (i + 1) p

/-- `ScoreBoard::shiftScore(score)`. -/
def ScoreBoard.shiftScore (b : ScoreBoard) (sc : Nat) : ScoreBoard :=
  let slots := sc :: b.slots.take 10
  let p := peakScan (slots.drop 1) 1 (sc, 0)
  ⟨slots, p.1, p.2⟩

/-- `ScoreBoard()` zero-initializes the slots (the peak cache members are
left uninitialized in the C++ constructor; they are set on the first
`shiftScore`; we model them as 0). -/
def ScoreBoard.init : ScoreBoard := ⟨List.replicate 11 0, 0, 0⟩

/-- Modelled from the spec: `ScoreBoard::centerIndex` is referenced by the
sketch but its declaration is missing from the `src/ScoreBoard.h` revision
present (that header also lacks the peak cache members used by
`src/ScoreBoard.cpp`).  Spec section 4.C fixes the center slot as
`N/2 = 5` for `N = 11`. -/
def centerIndex : Nat := 5

/-- Two's-complement wrap into `int8_t` range. -/
def wrapI8 (x : Int) : Int := (x + 128) % 256 - 128

/-! ## Acquisition / tracking state machine and per-tick interrupt
sequence (src/NixieClock.ino lines 265-284, 629-822, 825-861) -/

def MODE_SEEK : Nat := 0
def MODE_SYNC : Nat := 1

def scoreThreshold : Nat := 70
def bitSeek_detectedSymbolThreshold : Nat := 10
def bitSync_missedSymbolThreshold : Nat := 6

/-- The mutable globals touched by the per-tick interrupt sequence. -/
structure ClockState where
  samples : List Nat
  sb_zero : ScoreBoard
  sb_one : ScoreBoard
  sb_marker : ScoreBoard
  sampleBuffer : List Nat
  sampleIndex : Nat
  symbolStream : List Char
  mode : Nat
  bitSeek_detectedSymbolCount : Nat
  bitSync_peekCountdown : Nat
  bitSync_localTicksSinceSync : Nat
  bitSync_accumulatedOffset : Int
  bitSync_missedSymbolCount : Nat
  bitSync_parametersSaved : Bool
  bitSync_localTicksSinceParameterSave : Nat
  tick_interval_cycles : Nat
  tick_frac_numerator : Nat
  tod : Tod
  valid_frame_flag : Bool
  update_pixels_flag : Bool
  mode_changed : Bool
  tick_interval_changed : Bool
  unsaved_parameters : Bool
deriving Repr, DecidableEq

/-- `setMode(newMode)` (src lines 679-700): per-mode counter resets, then
the mode change itself. -/
def setMode (newMode : Nat) (s : ClockState) : ClockState :=
  let s1 :=
    if newMode = MODE_SEEK then { s with bitSeek_detectedSymbolCount := 0 }
    else if newMode = MODE_SYNC then
      { s with bitSync_peekCountdown := 60, bitSync_parametersSaved := false,
               bitSync_missedSymbolCount := 0 }
    else s
  { s1 with mode := newMode, mode_changed := true }

/-- `adjustTickInterval(localTicks, apparentTicks)` (src lines 825-861):
recombine the clock parameters into the scaled count, rescale through
`muldiv`, average with the old value (`>> 1` on `unsigned long`), and
decompose back into whole cycles (`uint16_t`) and fraction numerator. -/
def adjustTickInterval (cycles frac localTicks apparentTicks : Nat) : Nat × Nat :=
  let scaledCounts := (cycles * 64 + frac) % U32
  let updatedCounts := muldiv scaledCounts localTicks apparentTicks
  let filteredCounts := (updatedCounts + scaledCounts) % U32 / 2
  (filteredCounts / 64 % U16, filteredCounts % 64)

/-- `bitSeek()` (src lines 705-733): detect a center-slot peak over the
threshold (boards tried in ZERO, ONE, MARKER order), shift any detected
symbol in, and enter SYNC at the detection threshold. -/
def bitSeek (s : ClockState) : ClockState :=
  let detected : Option Char :=
    if s.sb_zero.peakValue > scoreThreshold then
      (if s.sb_zero.peakIndex = centerIndex then some '0' else none)
    else if s.sb_one.peakValue > scoreThreshold then
      (if s.sb_one.peakIndex = centerIndex then some '1' else none)
    else if s.sb_marker.peakValue > scoreThreshold then
      (if s.sb_marker.peakIndex = centerIndex then some 'M' else none)
    else none
  let s2 :=
    match detected with
    | some c =>
      let r := shiftSymbol c s.symbolStream
      { s with bitSeek_detectedSymbolCount := (s.bitSeek_detectedSymbolCount + 1) % U8,
               symbolStream := r.1,
               valid_frame_flag := s.valid_frame_flag || r.2.2 }
    | none => s
  if s2.bitSeek_detectedSymbolCount = bitSeek_detectedSymbolThreshold then
    setMode MODE_SYNC s2
  else s2

/-- `bitSync()` (src lines 739-822).  The returned `Bool` is true exactly
when `adjustTickInterval` was invoked on this tick. -/
def bitSync (s0 : ClockState) : ClockState × Bool :=
  let cd := if s0.bitSync_peekCountdown = 0 then U8 - 1 else s0.bitSync_peekCountdown - 1
  let s := { s0 with bitSync_peekCountdown := cd }
  if cd > 0 then (s, false)
  else
    let hit : Option (Char × Nat) :=
      if s.sb_zero.peakValue > scoreThreshold then some ('0', s.sb_zero.peakIndex)
      else if s.sb_one.peakValue > scoreThreshold then some ('1', s.sb_one.peakIndex)
      else if s.sb_marker.peakValue > scoreThreshold then some ('M', s.sb_marker.peakIndex)
      else none
    match hit with
    | none =>
      let r := shiftSymbol '-' s.symbolStream
      let s1 := { s with symbolStream := r.1,
                         valid_frame_flag := s.valid_frame_flag || r.2.2,
                         bitSync_missedSymbolCount := (s.bitSync_missedSymbolCount + 1) % U8 }
      if s1.bitSync_missedSymbolCount = bitSync_missedSymbolThreshold then
        (setMode MODE_SEEK s1, false)
      else ({ s1 with bitSync_peekCountdown := 60 }, false)
    | some (c, pi) =>
      let r := shiftSymbol c s.symbolStream
      let offset := wrapI8 ((centerIndex : Int) - (pi : Int))
      let acc := wrapI16 (s.bitSync_accumulatedOffset + offset)
      let s1 := { s with symbolStream := r.1,
                         valid_frame_flag := s.valid_frame_flag || r.2.2,
                         bitSync_missedSymbolCount := 0,
                         bitSync_accumulatedOffset := acc,
                         bitSync_peekCountdown := ((60 + offset) % 256).toNat }
      if acc < -15 ∨ acc > 15 then
        if s1.bitSync_localTicksSinceSync > 1000 then
          let ltk : Nat := s1.bitSync_localTicksSinceSync
          let apparent := (((ltk : Int) - acc) % (U32 : Int)).toNat
          let np := adjustTickInterval s1.tick_interval_cycles s1.tick_frac_numerator ltk apparent
          ({ s1 with tick_interval_cycles := np.1, tick_frac_numerator := np.2,
                     tick_interval_changed := true, unsaved_parameters := true,
                     bitSync_localTicksSinceSync := 0,
                     bitSync_accumulatedOffset := 0 }, true)
        else (s1, false)
      else (s1, false)

/-- Externally visible side effects of the per-tick interrupt sequence:
pushing the pixel strip (`pixels.show()`), transferring bytes to the
display shift register (`SPI.transfer` in `updateNixies()`), and writing
the byte store (`EEPROM.write` in `saveParameters()`, which is only ever
called from the main loop). -/
inductive Action where
  | pixelShow : Action
  | spiTransfer : Action
  | eepromWrite : Action
deriving Repr, DecidableEq

/-- `tick()` (src lines 629-669), the whole per-tick interrupt sequence:
sample shift, three correlator scores into their scoreboards, sample
buffer update, `pixels.show()`, tick counters, mode dispatch, and
`tickTime()`.  Returns the new state and the ordered list of external
actions performed during the tick. -/
def tick (s : ClockState) (input : Nat) : ClockState × List Action :=
  let samples1 := shiftSample input s.samples
  let sb0 := s.sb_zero.shiftScore (score samples1 PATTERN_ZERO)
  let sb1 := s.sb_one.shiftScore (score samples1 PATTERN_ONE)
  let sbM := s.sb_marker.shiftScore (score samples1 PATTERN_MARKER)
  let buf := s.sampleBuffer.set s.sampleIndex (input % U8)
  let idx := if s.sampleIndex + 1 ≥ 60 then 0 else (s.sampleIndex + 1) % U8
  let s1 := { s with samples := samples1, sb_zero := sb0, sb_one := sb1, sb_marker := sbM,
                     sampleBuffer := buf, sampleIndex := idx,
                     bitSync_localTicksSinceSync := (s.bitSync_localTicksSinceSync + 1) % U32,
                     bitSync_localTicksSinceParameterSave :=
                       (s.bitSync_localTicksSinceParameterSave + 1) % U32 }
  let s2 :=
    if s1.mode = MODE_SEEK then bitSeek s1
    else if s1.mode = MODE_SYNC then (bitSync s1).1
    else s1
  let tt := tickTime s2.tod
  let s3 := { s2 with tod := tt.1, update_pixels_flag := true }
  (s3, Action.pixelShow :: (if tt.2 then [Action.spiTransfer] else []))

/-- The globals at startup: zero-initialized C globals together with the
explicit initializers from the source (`bitSync_peekCountdown = 60`,
`tick_interval_cycles = 33333`, `tick_frac_numerator = 21`,
`scoreThreshold` fixed elsewhere); `mode` starts at `MODE_SEEK`. -/
def initState : ClockState where
  samples := List.replicate 10 0
  sb_zero := ScoreBoard.init
  sb_one := ScoreBoard.init
  sb_marker := ScoreBoard.init
  sampleBuffer := List.replicate 60 0
  sampleIndex := 0
  symbolStream := List.replicate 60 (Char.ofNat 0)
  mode := MODE_SEEK
  bitSeek_detectedSymbolCount := 0
  bitSync_peekCountdown := 60
  bitSync_localTicksSinceSync := 0
  bitSync_accumulatedOffset := 0
  bitSync_missedSymbolCount := 0
  bitSync_parametersSaved := false
  bitSync_localTicksSinceParameterSave := 0
  tick_interval_cycles := 33333
  tick_frac_numerator := 21
  tod := { ticks := 0, seconds := 0, minutes := 0, hours := 0, day := 0, year := 0,
           isleapminute := false, isleapyear := false, fix := false,
           secondChanged := false, minuteChanged := false }
  valid_frame_flag := false
  update_pixels_flag := false
  mode_changed := false
  tick_interval_changed := false
  unsaved_parameters := false

/-- A SYNC-mode state about to peek at the scoreboards on the next tick. -/
def syncPeekState : ClockState :=
  { initState with mode := MODE_SYNC, bitSync_peekCountdown := 1 }

/-! ## Helper lemmas -/

theorem mul_add_div_self (q r c : Nat) (hc : 0 < c) (hr : r < c) :
    (q * c + r) / c = q := by
  rw [Nat.add_comm, Nat.add_mul_div_right r q hc, Nat.div_eq_of_lt hr, Nat.zero_add]

/-- Exactness of the Egyptian-multiplication loop: as long as the divisor
is at most `2^31` (so the remainder arithmetic cannot wrap) and the running
total `q*c + r + a*(qn*c + rn)` stays below `2^32 * c` (so the quotient
arithmetic cannot wrap), the loop computes the exact quotient. -/
theorem muldivLoop_exact (a : Nat) :
    ∀ q r qn rn c : Nat, 0 < c → c ≤ 2 ^ 31 → r < c → rn < c →
      q * c + r + a * (qn * c + rn) < U32 * c →
      muldivLoop a q r qn rn c = (q * c + r + a * (qn * c + rn)) / c := by
  induction a using Nat.strong_induction_on with
  | _ a ih =>
    intro q r qn rn c hc h31 hr hrn hsum
    by_cases ha : a = 0
    · subst ha
      rw [muldivLoop]
      simp only [dif_pos]
      rw [Nat.zero_mul, Nat.add_zero, mul_add_div_self q r c hc hr]
    · have ha1 : 1 ≤ a := Nat.pos_of_ne_zero ha
      have hU : U32 = 4294967296 := rfl
      have hc31 : c ≤ 2147483648 := by omega
      -- bounds that rule out wrap-around in the quotient updates
      have hBa : qn * c + rn ≤ a * (qn * c + rn) := Nat.le_mul_of_pos_left _ ha1
      have hqqn : (q + qn) * c + (r + rn) ≤ q * c + r + a * (qn * c + rn) :=
        calc (q + qn) * c + (r + rn) = q * c + r + (qn * c + rn) := by ring
          _ ≤ q * c + r + a * (qn * c + rn) := Nat.add_le_add_left hBa _
      have hqqnU : q + qn < U32 := by
        have h1 : (q + qn) * c < U32 * c :=
          lt_of_le_of_lt (le_trans (Nat.le_add_right _ (r + rn)) hqqn) hsum
        exact Nat.lt_of_mul_lt_mul_right h1
      have hrrn : r + rn < U32 := by omega
      have h2rn : rn * 2 < U32 := by omega
      have h0 : ∀ x y z w : Nat, muldivLoop 0 x y z w c = x := by
        intro x y z w
        rw [muldivLoop]
        simp
      rw [muldivLoop]
      rw [dif_neg ha]
      rcases Nat.mod_two_eq_zero_or_one a with ho | ho
      · -- a even, hence a ≥ 2
        have ha2 : 2 ≤ a := by omega
        have h2B : 2 * (qn * c + rn) ≤ a * (qn * c + rn) :=
          Nat.mul_le_mul_right _ ha2
        have h2qn : qn * 2 < U32 := by
          have h1 : qn * 2 * c < U32 * c :=
            calc qn * 2 * c = qn * c + qn * c := by ring
              _ ≤ 2 * (qn * c + rn) := by
                  rw [show 2 * (qn * c + rn) = qn * c + qn * c + 2 * rn by ring]
                  exact Nat.le_add_right _ _
              _ ≤ a * (qn * c + rn) := h2B
              _ ≤ q * c + r + a * (qn * c + rn) := Nat.le_add_left _ _
              _ < U32 * c := hsum
          exact Nat.lt_of_mul_lt_mul_right h1
        simp only [ho, show (0 : Nat) ≠ 1 by omega, if_false]
        by_cases hcar : rn * 2 % U32 ≥ c
        · rw [if_pos hcar]
          rw [Nat.mod_eq_of_lt h2rn] at hcar
          have h2qn1 : qn * 2 + 1 < U32 := by
            have h1 : (qn * 2 + 1) * c < U32 * c :=
              calc (qn * 2 + 1) * c = qn * c + qn * c + c := by ring
                _ ≤ qn * c + qn * c + rn * 2 := Nat.add_le_add_left hcar _
                _ = 2 * (qn * c + rn) := by ring
                _ ≤ a * (qn * c + rn) := h2B
                _ ≤ q * c + r + a * (qn * c + rn) := Nat.le_add_left _ _
                _ < U32 * c := hsum
            exact Nat.lt_of_mul_lt_mul_right h1
          rw [Nat.mod_eq_of_lt h2rn, Nat.mod_eq_of_lt h2qn, Nat.mod_eq_of_lt h2qn1]
          have hB2 : (qn * 2 + 1) * c + (rn * 2 - c) = 2 * (qn * c + rn) := by
            have hd : (qn * 2 + 1) * c = qn * c + qn * c + c := by ring
            have hs : 2 * (qn * c + rn) = qn * c + qn * c + (rn + rn) := by ring
            omega
          have hkey : q * c + r + a / 2 * ((qn * 2 + 1) * c + (rn * 2 - c))
              = q * c + r + a * (qn * c + rn) := by
            rw [hB2, ← Nat.mul_assoc]
            have hev : a / 2 * 2 = a := by omega
            rw [hev]
          rw [ih (a / 2) (by omega) q r (qn * 2 + 1) (rn * 2 - c) c hc h31 hr
            (by omega) (by rw [hkey]; exact hsum), hkey]
        · rw [if_neg hcar]
          rw [Nat.mod_eq_of_lt h2rn] at hcar
          push_neg at hcar
          rw [Nat.mod_eq_of_lt h2rn, Nat.mod_eq_of_lt h2qn]
          have hkey : q * c + r + a / 2 * (qn * 2 * c + rn * 2)
              = q * c + r + a * (qn * c + rn) := by
            have hB2 : qn * 2 * c + rn * 2 = 2 * (qn * c + rn) := by ring
            rw [hB2, ← Nat.mul_assoc]
            have hev : a / 2 * 2 = a := by omega
            rw [hev]
          rw [ih (a / 2) (by omega) q r (qn * 2) (rn * 2) c hc h31 hr
            (by omega) (by rw [hkey]; exact hsum), hkey]
      · -- a odd: the low bit adds (qn, rn) into (q, r) with carry handling
        simp only [ho, if_true, Nat.mod_eq_of_lt hqqnU, Nat.mod_eq_of_lt hrrn]
        by_cases hrc : r + rn ≥ c
        · rw [if_pos hrc]
          have hq1U : q + qn + 1 < U32 := by
            have h1 : (q + qn + 1) * c < U32 * c :=
              calc (q + qn + 1) * c = (q + qn) * c + c := by ring
                _ ≤ (q + qn) * c + (r + rn) := Nat.add_le_add_left hrc _
                _ ≤ q * c + r + a * (qn * c + rn) := hqqn
                _ < U32 * c := hsum
            exact Nat.lt_of_mul_lt_mul_right h1
          rw [Nat.mod_eq_of_lt hq1U]
          have hQR : (q + qn + 1) * c + (r + rn - c) = q * c + r + (qn * c + rn) := by
            have hd : (q + qn + 1) * c = q * c + qn * c + c := by ring
            omega
          by_cases haone : a = 1
          · subst haone
            rw [show (1 : Nat) / 2 = 0 from rfl]
            simp only [h0, ite_self]
            have hfin : q * c + r + (qn * c + rn) = (q + qn + 1) * c + (r + rn - c) :=
              hQR.symm
            rw [one_mul, hfin, mul_add_div_self _ _ c hc (by omega)]
          · have ha2 : 2 ≤ a := by omega
            have h2B : 2 * (qn * c + rn) ≤ a * (qn * c + rn) :=
              Nat.mul_le_mul_right _ ha2
            have h2qn : qn * 2 < U32 := by
              have h1 : qn * 2 * c < U32 * c :=
                calc qn * 2 * c = qn * c + qn * c := by ring
                  _ ≤ 2 * (qn * c + rn) := by
                      rw [show 2 * (qn * c + rn) = qn * c + qn * c + 2 * rn by ring]
                      exact Nat.le_add_right _ _
                  _ ≤ a * (qn * c + rn) := h2B
                  _ ≤ q * c + r + a * (qn * c + rn) := Nat.le_add_left _ _
                  _ < U32 * c := hsum
              exact Nat.lt_of_mul_lt_mul_right h1
            have hodd : a / 2 * 2 + 1 = a := by omega
            by_cases hcar : rn * 2 % U32 ≥ c
            · rw [if_pos hcar]
              rw [Nat.mod_eq_of_lt h2rn] at hcar
              have h2qn1 : qn * 2 + 1 < U32 := by
                have h1 : (qn * 2 + 1) * c < U32 * c :=
                  calc (qn * 2 + 1) * c = qn * c + qn * c + c := by ring
                    _ ≤ qn * c + qn * c + rn * 2 := Nat.add_le_add_left hcar _
                    _ = 2 * (qn * c + rn) := by ring
                    _ ≤ a * (qn * c + rn) := h2B
                    _ ≤ q * c + r + a * (qn * c + rn) := Nat.le_add_left _ _
                    _ < U32 * c := hsum
                exact Nat.lt_of_mul_lt_mul_right h1
              rw [Nat.mod_eq_of_lt h2rn, Nat.mod_eq_of_lt h2qn, Nat.mod_eq_of_lt h2qn1]
              have hB2 : (qn * 2 + 1) * c + (rn * 2 - c) = 2 * (qn * c + rn) := by
                have hd : (qn * 2 + 1) * c = qn * c + qn * c + c := by ring
                have hs : 2 * (qn * c + rn) = qn * c + qn * c + (rn + rn) := by ring
                omega
              have hkey : (q + qn + 1) * c + (r + rn - c)
                  + a / 2 * ((qn * 2 + 1) * c + (rn * 2 - c))
                  = q * c + r + a * (qn * c + rn) := by
                rw [hB2, hQR, ← Nat.mul_assoc]
                have ha3 : a * (qn * c + rn) = (a / 2 * 2 + 1) * (qn * c + rn) := by
                  rw [hodd]
                rw [ha3]
                ring
              rw [ih (a / 2) (by omega) (q + qn + 1) (r + rn - c) (qn * 2 + 1)
                (rn * 2 - c) c hc h31 (by omega) (by omega)
                (by rw [hkey]; exact hsum), hkey]
            · rw [if_neg hcar]
              rw [Nat.mod_eq_of_lt h2rn] at hcar
              push_neg at hcar
              rw [Nat.mod_eq_of_lt h2rn, Nat.mod_eq_of_lt h2qn]
              have hkey : (q + qn + 1) * c + (r + rn - c)
                  + a / 2 * (qn * 2 * c + rn * 2)
                  = q * c + r + a * (qn * c + rn) := by
                have hB2 : qn * 2 * c + rn * 2 = 2 * (qn * c + rn) := by ring
                rw [hB2, hQR, ← Nat.mul_assoc]
                have ha3 : a * (qn * c + rn) = (a / 2 * 2 + 1) * (qn * c + rn) := by
                  rw [hodd]
                rw [ha3]
                ring
              rw [ih (a / 2) (by omega) (q + qn + 1) (r + rn - c) (qn * 2)
                (rn * 2) c hc h31 (by omega) (by omega)
                (by rw [hkey]; exact hsum), hkey]
        · rw [if_neg hrc]
          push_neg at hrc
          have hQR : (q + qn) * c + (r + rn) = q * c + r + (qn * c + rn) := by
            have hd : (q + qn) * c = q * c + qn * c := by ring
            omega
          by_cases haone : a = 1
          · subst haone
            rw [show (1 : Nat) / 2 = 0 from rfl]
            simp only [h0, ite_self]
            rw [one_mul, ← hQR, mul_add_div_self _ _ c hc (by omega)]
          · have ha2 : 2 ≤ a := by omega
            have h2B : 2 * (qn * c + rn) ≤ a * (qn * c + rn) :=
              Nat.mul_le_mul_right _ ha2
            have h2qn : qn * 2 < U32 := by
              have h1 : qn * 2 * c < U32 * c :=
                calc qn * 2 * c = qn * c + qn * c := by ring
                  _ ≤ 2 * (qn * c + rn) := by
                      rw [show 2 * (qn * c + rn) = qn * c + qn * c + 2 * rn by ring]
                      exact Nat.le_add_right _ _
                  _ ≤ a * (qn * c + rn) := h2B
                  _ ≤ q * c + r + a * (qn * c + rn) := Nat.le_add_left _ _
                  _ < U32 * c := hsum
              exact Nat.lt_of_mul_lt_mul_right h1
            have hodd : a / 2 * 2 + 1 = a := by omega
            by_cases hcar : rn * 2 % U32 ≥ c
            · rw [if_pos hcar]
              rw [Nat.mod_eq_of_lt h2rn] at hcar
              have h2qn1 : qn * 2 + 1 < U32 := by
                have h1 : (qn * 2 + 1) * c < U32 * c :=
                  calc (qn * 2 + 1) * c = qn * c + qn * c + c := by ring
                    _ ≤ qn * c + qn * c + rn * 2 := Nat.add_le_add_left hcar _
                    _ = 2 * (qn * c + rn) := by ring
                    _ ≤ a * (qn * c + rn) := h2B
                    _ ≤ q * c + r + a * (qn * c + rn) := Nat.le_add_left _ _
                    _ < U32 * c := hsum
                exact Nat.lt_of_mul_lt_mul_right h1
              rw [Nat.mod_eq_of_lt h2rn, Nat.mod_eq_of_lt h2qn, Nat.mod_eq_of_lt h2qn1]
              have hB2 : (qn * 2 + 1) * c + (rn * 2 - c) = 2 * (qn * c + rn) := by
                have hd : (qn * 2 + 1) * c = qn * c + qn * c + c := by ring
                have hs : 2 * (qn * c + rn) = qn * c + qn * c + (rn + rn) := by ring
                omega
              have hkey : (q + qn) * c + (r + rn)
                  + a / 2 * ((qn * 2 + 1) * c + (rn * 2 - c))
                  = q * c + r + a * (qn * c + rn) := by
                rw [hB2, hQR, ← Nat.mul_assoc]
                have ha3 : a * (qn * c + rn) = (a / 2 * 2 + 1) * (qn * c + rn) := by
                  rw [hodd]
                rw [ha3]
                ring
              rw [ih (a / 2) (by omega) (q + qn) (r + rn) (qn * 2 + 1)
                (rn * 2 - c) c hc h31 (by omega) (by omega)
                (by rw [hkey]; exact hsum), hkey]
            · rw [if_neg hcar]
              rw [Nat.mod_eq_of_lt h2rn] at hcar
              push_neg at hcar
              rw [Nat.mod_eq_of_lt h2rn, Nat.mod_eq_of_lt h2qn]
              have hkey : (q + qn) * c + (r + rn)
                  + a / 2 * (qn * 2 * c + rn * 2)
                  = q * c + r + a * (qn * c + rn) := by
                have hB2 : qn * 2 * c + rn * 2 = 2 * (qn * c + rn) := by ring
                rw [hB2, hQR, ← Nat.mul_assoc]
                have ha3 : a * (qn * c + rn) = (a / 2 * 2 + 1) * (qn * c + rn) := by
                  rw [hodd]
                rw [ha3]
                ring
              rw [ih (a / 2) (by omega) (q + qn) (r + rn) (qn * 2)
                (rn * 2) c hc h31 (by omega) (by omega)
                (by rw [hkey]; exact hsum), hkey]

/-- Helper: `muldiv` returns the exact floored quotient whenever the
divisor is at most `2^31` and the true quotient fits `uint32_t`
(equivalently `a*b < 2^32 * c`). -/
theorem muldiv_eq_div (a b c : Nat) (hc : 0 < c) (hc31 : c ≤ 2 ^ 31)
    (hab : a * b < U32 * c) : muldiv a b c = a * b / c := by
  unfold muldiv
  have hsplit : b / c * c + b % c = b := Nat.div_add_mod' b c
  have hnum : 0 * c + 0 + a * (b / c * c + b % c) = a * b := by rw [hsplit]; ring
  rw [muldivLoop_exact a 0 0 (b / c) (b % c) c hc hc31 hc (Nat.mod_lt b hc)
    (by rw [hnum]; exact hab), hnum]

/-! ## Claim C1: shiftSymbol frame-alignment score

Helper characterization of the scoring loop, then the claim theorems. -/

theorem shiftScoreLoop_spec (l : List Char) : ∀ k : Nat, 1 ≤ k → k ≤ 10 →
    shiftScoreLoop l k ≤ l.length ∧
    (shiftScoreLoop l k = l.length ↔
      ∀ i < l.length, slotOK ((i + 10 - k) % 10) (l.getD i ' ')) := by
  induction l with
  | nil =>
    intro k _ _
    simp [shiftScoreLoop]
  | cons c rest IH =>
    intro k hk1 hk10
    -- countdown for the tail
    have hk' : (if k = 1 then 10 else k - 1) ≥ 1 ∧ (if k = 1 then 10 else k - 1) ≤ 10 := by
      by_cases hk : k = 1 <;> simp [hk] <;> omega
    by_cases hk : k = 1
    · subst hk
      have hIH := IH 10 (by omega) (by omega)
      have e : shiftScoreLoop (c :: rest) 1
          = (if c = 'M' then 1 else 0) + shiftScoreLoop rest 10 := by
        simp [shiftScoreLoop]
      have hRle := hIH.1
      have harg : ∀ j : Nat, (j + 1 + 10 - 1) % 10 = (j + 10 - 10) % 10 := by
        intro j; omega
      have hhead : slotOK ((0 + 10 - 1) % 10) c ↔ c = 'M' := by
        simp [slotOK]
      constructor
      · rw [e]
        by_cases hc : c = 'M' <;> simp [hc] <;> omega
      · rw [e]
        constructor
        · intro heq i hi
          have hI : (if c = 'M' then 1 else 0) = 1 ∧ shiftScoreLoop rest 10 = rest.length := by
            by_cases hc : c = 'M' <;> simp [hc] at heq ⊢ <;> omega
          have hcM : c = 'M' := by
            rcases hI with ⟨h1, _⟩
            by_cases h : c = 'M'
            · exact h
            · simp [h] at h1
          have hall := hIH.2.mp hI.2
          match i, hi with
          | 0, _ =>
            simpa [hhead] using hcM
          | j + 1, hi =>
            have hj : j < rest.length := by simpa using hi
            have := hall j hj
            rw [List.getD_cons_succ, harg j]
            exact this
        · intro hall
          have hcM : c = 'M' := by
            have h0 := hall 0 (by simp)
            simpa [hhead] using h0
          have hrest : shiftScoreLoop rest 10 = rest.length := by
            apply hIH.2.mpr
            intro j hj
            have := hall (j + 1) (by simpa using Nat.succ_lt_succ hj)
            rw [List.getD_cons_succ, harg j] at this
            exact this
          simp [hcM, hrest] <;> omega
    · -- k ≥ 2: the head slot is a data slot
      have hk2 : 2 ≤ k := by omega
      have hIH := IH (k - 1) (by omega) (by omega)
      have e : shiftScoreLoop (c :: rest) k
          = (if c = '0' ∨ c = '1' then 1 else 0) + shiftScoreLoop rest (k - 1) := by
        simp only [shiftScoreLoop]
        rw [if_neg (by omega : ¬ (k - 1 = 0))]
      have hRle := hIH.1
      have harg : ∀ j : Nat, (j + 1 + 10 - k) % 10 = (j + 10 - (k - 1)) % 10 := by
        intro j; omega
      have hhead : slotOK ((0 + 10 - k) % 10) c ↔ (c = '0' ∨ c = '1') := by
        have hm : (0 + 10 - k) % 10 ≠ 9 := by omega
        simp [slotOK, hm]
      constructor
      · rw [e]
        by_cases hc : c = '0' ∨ c = '1' <;> simp [hc] <;> omega
      · rw [e]
        constructor
        · intro heq i hi
          have hI : (if c = '0' ∨ c = '1' then 1 else 0) = 1
              ∧ shiftScoreLoop rest (k - 1) = rest.length := by
            by_cases hc : c = '0' ∨ c = '1' <;> simp [hc] at heq ⊢ <;> omega
          have hc01 : c = '0' ∨ c = '1' := by
            rcases hI with ⟨h1, _⟩
            by_cases h : c = '0' ∨ c = '1'
            · exact h
            · simp [h] at h1
          have hall := hIH.2.mp hI.2
          match i, hi with
          | 0, _ =>
            simpa [hhead] using hc01
          | j + 1, hi =>
            have hj : j < rest.length := by simpa using hi
            have := hall j hj
            rw [List.getD_cons_succ, harg j]
            exact this
        · intro hall
          have hc01 : c = '0' ∨ c = '1' := by
            have h0 := hall 0 (by simp)
            simpa [hhead] using h0
          have hrest : shiftScoreLoop rest (k - 1) = rest.length := by
            apply hIH.2.mpr
            intro j hj
            have := hall (j + 1) (by simpa using Nat.succ_lt_succ hj)
            rw [List.getD_cons_succ, harg j] at this
            exact this
          simp [hc01, hrest] <;> omega

/-- C1 amended: for every 60-slot stream and every new symbol, the score
computed by `shiftSymbol` lies in `[0, 60]` and `valid_frame_flag` is
raised exactly when the score is 60; but the score is 60 iff positions
9, 19, 29, 39, 49 and 59 of the post-shift stream hold `'M'`, the other
positions from 1 to 58 hold `'0'` or `'1'`, and position 0 holds any of
`'M'`, `'0'`, `'1'` — the loop scores position 0 as a data slot and the
code then also credits it as a marker slot, so exactly one of the two
checks can score there. -/
theorem shiftSymbol_frame_score (stream : List Char) (c : Char)
    (h60 : stream.length = 60) :
    (shiftSymbol c stream).2.1 ≤ 60 ∧
    ((shiftSymbol c stream).2.1 = 60 ↔ frameAlignedCode (shiftSymbol c stream).1) ∧
    ((shiftSymbol c stream).2.2 = true ↔ (shiftSymbol c stream).2.1 = 60) := by
  have hdlen : (stream.drop 1).length = 59 := by simp [h60]
  rcases hd : stream.drop 1 with _ | ⟨t0, t1⟩
  · rw [hd] at hdlen
    simp at hdlen
  · rw [hd] at hdlen
    have ht1 : t1.length = 58 := by simpa using hdlen
    have hspec := shiftScoreLoop_spec t1 9 (by omega) (by omega)
    rw [ht1] at hspec
    have eloop : shiftScoreLoop (t0 :: t1) 10
        = (if t0 = '0' ∨ t0 = '1' then 1 else 0) + shiftScoreLoop t1 9 := by
      simp [shiftScoreLoop]
    have hu0 : ((t0 :: t1) ++ [c]).getD 0 ' ' = t0 := by simp
    have humid : ∀ j, j < 58 → ((t0 :: t1) ++ [c]).getD (j + 1) ' ' = t1.getD j ' ' := by
      intro j hj
      rw [List.cons_append, List.getD_cons_succ, List.getD_append _ _ _ _ (by omega)]
    have hulast : ((t0 :: t1) ++ [c]).getD 59 ' ' = c := by
      rw [List.cons_append, List.getD_cons_succ,
        List.getD_append_right _ _ _ _ (by omega), ht1]
      simp
    simp only [shiftSymbol, hd]
    rw [eloop]
    rw [List.getD_cons_zero]
    set R := shiftScoreLoop t1 9 with hR
    set a1 : Nat := if t0 = '0' ∨ t0 = '1' then 1 else 0 with ha1
    set a2 : Nat := if t0 = 'M' then 1 else 0 with ha2
    set a3 : Nat := if c = 'M' then 1 else 0 with ha3
    have hRle : R ≤ 58 := hspec.1
    have hx : a1 + a2 ≤ 1 ∧ (a1 + a2 = 1 ↔ (t0 = 'M' ∨ t0 = '0' ∨ t0 = '1')) := by
      rw [ha1, ha2]
      by_cases h0 : t0 = '0' ∨ t0 = '1'
      · rcases h0 with h0 | h0 <;> subst h0 <;> simp
      · by_cases hM : t0 = 'M' <;> simp [h0, hM] <;> tauto
    have ha3iff : a3 ≤ 1 ∧ (a3 = 1 ↔ c = 'M') := by
      rw [ha3]
      by_cases hM : c = 'M' <;> simp [hM]
    refine ⟨by omega, ?_, ?_⟩
    · constructor
      · intro heq
        have hparts : R = 58 ∧ a1 + a2 = 1 ∧ a3 = 1 := by omega
        have hall := hspec.2.mp hparts.1
        have hcM : c = 'M' := ha3iff.2.mp hparts.2.2
        have ht0 : t0 = 'M' ∨ t0 = '0' ∨ t0 = '1' := hx.2.mp hparts.2.1
        refine ⟨?_, ?_, ?_⟩
        · intro i hi h1i h9i
          rcases Nat.lt_or_ge i 59 with hlt | hge
          · obtain ⟨j, rfl⟩ : ∃ j, i = j + 1 := ⟨i - 1, by omega⟩
            have hj : j < 58 := by omega
            have hs := hall j hj
            rw [humid j hj]
            have h9 : (j + 1) % 10 = 9 := h9i
            simpa [slotOK, h9] using hs
          · have hi59 : i = 59 := by omega
            rw [hi59, hulast]
            exact hcM
        · intro i hi h1i h9i
          have hi58 : i < 59 := by omega
          obtain ⟨j, rfl⟩ : ∃ j, i = j + 1 := ⟨i - 1, by omega⟩
          have hj : j < 58 := by omega
          have hs := hall j hj
          rw [humid j hj]
          have h9 : ¬ (j + 1) % 10 = 9 := h9i
          simpa [slotOK, h9] using hs
        · rw [hu0]
          exact ht0
      · intro hframe
        rcases hframe with ⟨hmk, hdata, h0⟩
        have hcM : c = 'M' := by
          have := hmk 59 (by omega) (by omega) (by omega)
          rwa [hulast] at this
        have ha3v : a3 = 1 := ha3iff.2.mpr hcM
        have ha12 : a1 + a2 = 1 := by
          apply hx.2.mpr
          rwa [hu0] at h0
        have hRv : R = 58 := by
          apply hspec.2.mpr
          intro j hj
          have harg : (j + 10 - 9) % 10 = (j + 1) % 10 := by omega
          by_cases h9 : (j + 1) % 10 = 9
          · have := hmk (j + 1) (by omega) (by omega) h9
            rw [humid j hj] at this
            rw [harg]
            simp only [slotOK, if_pos h9]
            exact this
          · have := hdata (j + 1) (by omega) (by omega) h9
            rw [humid j hj] at this
            rw [harg]
            simp only [slotOK, if_neg h9]
            exact this
        omega
    · simp

/-- C1 counterexample: a post-shift stream holding `'0'` at position 0
(markers at 9..59, data elsewhere) still scores 60, although the claim
requires position 0 to hold `'M'` for a score of 60. -/
theorem shiftSymbol_pos0_counterexample :
    (shiftSymbol 'M'
      ('-' :: (List.range 59).map fun i => if i % 10 = 9 then 'M' else '0')).2.1 = 60 ∧
    ¬ frameAlignedSpec (shiftSymbol 'M'
      ('-' :: (List.range 59).map fun i => if i % 10 = 9 then 'M' else '0')).1 := by
  constructor
  · decide
  · decide

/-- C1 witness: instantiation at a concrete 60-slot stream. -/
theorem shiftSymbol_frame_score_witness :
    (shiftSymbol '0' (List.replicate 60 '-')).2.1 ≤ 60 ∧
    ((shiftSymbol '0' (List.replicate 60 '-')).2.1 = 60 ↔
      frameAlignedCode (shiftSymbol '0' (List.replicate 60 '-')).1) ∧
    ((shiftSymbol '0' (List.replicate 60 '-')).2.2 = true ↔
      (shiftSymbol '0' (List.replicate 60 '-')).2.1 = 60) :=
  shiftSymbol_frame_score _ '0' (by simp)

/-! ## Claim C2: muldiv -/

/-- C2 counterexample: `muldiv(2, 2^31, 1)` returns 0, not the true
product `2^32` — the doubling of `qn` wraps around `uint32_t`, so the
claim fails on inputs whose product does not fit the native word width. -/
theorem muldiv_overflow_counterexample :
    muldiv 2 2147483648 1 ≠ 2 * 2147483648 / 1 := by
  have h : muldiv 2 2147483648 1 = 0 := by
    unfold muldiv
    norm_num
    rw [muldivLoop]
    norm_num [U32]
    rw [muldivLoop]
    norm_num [U32]
    rw [muldivLoop]
    norm_num
  rw [h]
  norm_num

/-- C2 amended: for `uint32_t` inputs with `0 < c`, `muldiv(a, b, c)`
returns `floor(a*b/c)` provided the divisor is at most `2^31` and the
exact quotient fits `uint32_t` (`a*b < 2^32 * c`); the native 32-bit
arithmetic wraps outside this range. -/
theorem muldiv_floor_within_bounds (a b c : Nat) (ha : a < U32) (hb : b < U32)
    (hc : 0 < c) (hc31 : c ≤ 2 ^ 31) (hab : a * b < U32 * c) :
    muldiv a b c = a * b / c :=
  muldiv_eq_div a b c hc hc31 hab

/-- C2 witness: a concrete in-range instantiation. -/
theorem muldiv_floor_within_bounds_witness : muldiv 2133332 7999 8000 = 2133065 := by
  have h := muldiv_floor_within_bounds 2133332 7999 8000 (by norm_num [U32])
    (by norm_num [U32]) (by norm_num) (by norm_num) (by norm_num [U32])
  rw [h]

/-! ## Claim C3: correlator score and self-match

Helper lemmas relating the `arity` table to popcount, the rotate-through-
carry shift to the 80-bit little-endian value of the register, and the
template bit layout to the register value; then the claim theorem. -/

set_option maxRecDepth 100000 in
theorem arity_complement : ∀ y < 256, arity.getD (255 ^^^ y) 0 = 8 - popCount y ∧ popCount y ≤ 8 := by
  decide

theorem score_add_xorPopCount : ∀ (s p : List Nat), s.length = p.length →
    bytesValid s → bytesValid p →
    score s p + xorPopCount s p = 8 * s.length ∧ xorPopCount s p ≤ 8 * s.length := by
  intro s
  induction s with
  | nil =>
    intro p hl _ _
    have : p = [] := by
      cases p
      · rfl
      · simp at hl
    subst this
    simp [score, xorPopCount]
  | cons a s IH =>
    intro p hl hsv hpv
    cases p with
    | nil => simp at hl
    | cons b p =>
      have hab : a ^^^ b < 256 := by
        have ha : a < 256 := hsv a (by simp)
        have hb : b < 256 := hpv b (by simp)
        have := Nat.xor_lt_two_pow (n := 8) (by simpa using ha) (by simpa using hb)
        simpa using this
      have harity := arity_complement (a ^^^ b) hab
      have hIH := IH p (by simpa using hl) (fun x hx => hsv x (by simp [hx]))
        (fun x hx => hpv x (by simp [hx]))
      have es : score (a :: s) (b :: p)
          = arity.getD (255 ^^^ (a ^^^ b)) 0 + score s p := by
        simp [score]
      have ex : xorPopCount (a :: s) (b :: p)
          = popCount (a ^^^ b) + xorPopCount s p := by
        simp [xorPopCount]
      rw [es, ex, harity.1]
      have h8 := harity.2
      constructor
      · have : 8 * (a :: s).length = 8 * s.length + 8 := by simp; ring
        omega
      · have : 8 * (a :: s).length = 8 * s.length + 8 := by simp; ring
        omega


theorem rolChain_length : ∀ (l : List Nat) (c : Nat), (rolChain c l).length = l.length := by
  intro l
  induction l with
  | nil => intro c; rfl
  | cons b rest IH => intro c; simp [rolChain, IH]

theorem rolChain_valid : ∀ (l : List Nat) (c : Nat), bytesValid (rolChain c l) := by
  intro l
  induction l with
  | nil => intro c x hx; simp [rolChain] at hx
  | cons b rest IH =>
    intro c x hx
    simp only [rolChain] at hx
    rcases List.mem_cons.mp hx with h | h
    · subst h
      have hU : U8 = 256 := rfl
      have := Nat.mod_lt (2 * b + c) (y := U8) (by omega)
      omega
    · exact IH _ x h

theorem mod_mul_decomp (x d m : Nat) (hd : d < 256) (hm : 0 < m) :
    (256 * x + d) % (256 * m) = 256 * (x % m) + d := by
  have h1 : 256 * x + d = 256 * m * (x / m) + (256 * (x % m) + d) := by
    conv_lhs => rw [← Nat.div_add_mod x m]
    ring
  rw [h1, Nat.add_comm, Nat.add_mul_mod_self_left]
  apply Nat.mod_eq_of_lt
  have : x % m < m := Nat.mod_lt _ hm
  omega

theorem rolChain_toNat : ∀ (l : List Nat) (c : Nat), bytesValid l → c ≤ 1 →
    bytesToNat (rolChain c l) = (2 * bytesToNat l + c) % 2 ^ (8 * l.length) := by
  intro l
  induction l with
  | nil =>
    intro c _ hc
    simp [rolChain, bytesToNat]
    omega
  | cons b rest IH =>
    intro c hv hc
    have hb : b < 256 := hv b (by simp)
    have hU : U8 = 256 := rfl
    have hvr : bytesValid rest := fun x hx => hv x (by simp [hx])
    simp only [rolChain, bytesToNat, hU, List.length_cons]
    have hq : (2 * b + c) / 256 ≤ 1 := by omega
    rw [IH ((2 * b + c) / 256) hvr hq]
    have hmpos : 0 < (2:Nat) ^ (8 * rest.length) := Nat.two_pow_pos _
    have hexp : (2 : Nat) ^ (8 * (rest.length + 1)) = 256 * 2 ^ (8 * rest.length) := by
      rw [show 8 * (rest.length + 1) = 8 * rest.length + 8 by ring, pow_add]
      have : (2:Nat) ^ 8 = 256 := by norm_num
      rw [this, Nat.mul_comm]
    rw [hexp]
    set R := bytesToNat rest
    set m := (2:Nat) ^ (8 * rest.length) with hm
    have hd : (2 * b + c) % 256 < 256 := Nat.mod_lt _ (by omega)
    have h2 : 2 * (b + 256 * R) + c
        = 256 * ((2 * b + c) / 256 + 2 * R) + (2 * b + c) % 256 := by
      omega
    rw [h2, mod_mul_decomp _ _ _ hd hmpos]
    rw [Nat.add_comm (2 * R) ((2 * b + c) / 256)]
    exact Nat.add_comm _ _

theorem bitsFold_acc : ∀ (l : List Nat) (acc : Nat),
    l.foldl (fun a b => 2 * a + b) acc = acc * 2 ^ l.length + bitsToNat l := by
  intro l
  induction l with
  | nil => intro acc; simp [bitsToNat]
  | cons v r IH =>
    intro acc
    have h1 : (v :: r).foldl (fun a b => 2 * a + b) acc
        = r.foldl (fun a b => 2 * a + b) (2 * acc + v) := by simp
    have h2 : bitsToNat (v :: r) = v * 2 ^ r.length + bitsToNat r := by
      have : bitsToNat (v :: r) = r.foldl (fun a b => 2 * a + b) v := by
        simp [bitsToNat]
      rw [this, IH v]
    rw [h1, IH (2 * acc + v), h2]
    simp only [List.length_cons]
    ring

theorem bitsToNat_append (xs ys : List Nat) :
    bitsToNat (xs ++ ys) = bitsToNat xs * 2 ^ ys.length + bitsToNat ys := by
  unfold bitsToNat
  rw [List.foldl_append]
  exact bitsFold_acc ys _

theorem byteBitsMSB_spec (b : Nat) (hb : b < 256) :
    bitsToNat (byteBitsMSB b) = b ∧ (byteBitsMSB b).length = 8 ∧
    ∀ x ∈ byteBitsMSB b, x ≤ 1 := by
  refine ⟨?_, rfl, ?_⟩
  · simp [byteBitsMSB, bitsToNat]
    omega
  · intro x hx
    simp [byteBitsMSB] at hx
    rcases hx with h|h|h|h|h|h|h|h <;> subst h <;> omega

theorem headToTailBits_spec : ∀ (p : List Nat), bytesValid p →
    bitsToNat (headToTailBits p) = bytesToNat p ∧
    (headToTailBits p).length = 8 * p.length ∧
    ∀ x ∈ headToTailBits p, x ≤ 1 := by
  intro p
  induction p with
  | nil =>
    intro _
    refine ⟨rfl, rfl, ?_⟩
    intro x hx
    simp [headToTailBits] at hx
  | cons a rest IH =>
    intro hv
    have ha : a < 256 := hv a (by simp)
    have hIH := IH (fun x hx => hv x (by simp [hx]))
    have e : headToTailBits (a :: rest) = headToTailBits rest ++ byteBitsMSB a := by
      simp [headToTailBits]
    rw [e]
    have hbb := byteBitsMSB_spec a ha
    refine ⟨?_, ?_, ?_⟩
    · rw [bitsToNat_append, hIH.1, hbb.1, hbb.2.1]
      have h256 : (2:Nat) ^ 8 = 256 := by norm_num
      have hU : U8 = 256 := rfl
      simp [bytesToNat, h256, hU]
      ring
    · simp [hIH.2.1, hbb.2.1]
      ring
    · intro x hx
      rcases List.mem_append.mp hx with h | h
      · exact hIH.2.2 x h
      · exact hbb.2.2 x h

theorem bytesToNat_lt : ∀ (l : List Nat), bytesValid l →
    bytesToNat l < 2 ^ (8 * l.length) := by
  intro l
  induction l with
  | nil =>
    intro _
    simp [bytesToNat]
  | cons b rest IH =>
    intro hv
    have hb : b < 256 := hv b (by simp)
    have hR := IH (fun x hx => hv x (by simp [hx]))
    have hexp : (2 : Nat) ^ (8 * (b :: rest).length) = 256 * 2 ^ (8 * rest.length) := by
      simp only [List.length_cons]
      rw [show 8 * (rest.length + 1) = 8 * rest.length + 8 by ring, pow_add]
      have : (2:Nat) ^ 8 = 256 := by norm_num
      rw [this, Nat.mul_comm]
    rw [hexp]
    have hU : U8 = 256 := rfl
    simp only [bytesToNat, hU]
    set E := (2:Nat) ^ (8 * rest.length)
    omega

theorem bytesToNat_inj : ∀ (s t : List Nat), bytesValid s → bytesValid t →
    s.length = t.length → bytesToNat s = bytesToNat t → s = t := by
  intro s
  induction s with
  | nil =>
    intro t _ _ hl _
    cases t
    · rfl
    · simp at hl
  | cons a s IH =>
    intro t hsv htv hl heq
    cases t with
    | nil => simp at hl
    | cons b t =>
      have ha : a < 256 := hsv a (by simp)
      have hb : b < 256 := htv b (by simp)
      have hU : U8 = 256 := rfl
      simp only [bytesToNat, hU] at heq
      have hS := bytesToNat_lt s (fun x hx => hsv x (by simp [hx]))
      have hT := bytesToNat_lt t (fun x hx => htv x (by simp [hx]))
      have hab : a = b ∧ bytesToNat s = bytesToNat t := by omega
      have hrec := IH t (fun x hx => hsv x (by simp [hx])) (fun x hx => htv x (by simp [hx]))
        (by simpa using hl) hab.2
      rw [hab.1, hrec]

theorem shiftSamples_length : ∀ (bits s : List Nat),
    (shiftSamples bits s).length = s.length := by
  intro bits
  induction bits with
  | nil => intro s; rfl
  | cons v bs IH =>
    intro s
    have e : shiftSamples (v :: bs) s = shiftSamples bs (shiftSample v s) := by
      simp [shiftSamples]
    rw [e, IH, shiftSample, rolChain_length]

theorem shiftSamples_valid : ∀ (bits s : List Nat), bytesValid s →
    bytesValid (shiftSamples bits s) := by
  intro bits
  induction bits with
  | nil => intro s hv; exact hv
  | cons v bs IH =>
    intro s hv
    have e : shiftSamples (v :: bs) s = shiftSamples bs (shiftSample v s) := by
      simp [shiftSamples]
    rw [e]
    exact IH _ (rolChain_valid s (v % 2))

theorem shiftSamples_toNat : ∀ (bits s : List Nat), bytesValid s →
    (∀ x ∈ bits, x ≤ 1) →
    bytesToNat (shiftSamples bits s)
      = (bytesToNat s * 2 ^ bits.length + bitsToNat bits) % 2 ^ (8 * s.length) := by
  intro bits
  induction bits with
  | nil =>
    intro s hv _
    simp [shiftSamples, bitsToNat]
    exact (Nat.mod_eq_of_lt (bytesToNat_lt s hv)).symm
  | cons v bs IH =>
    intro s hv hb
    have hv1 : v ≤ 1 := hb v (by simp)
    have e : shiftSamples (v :: bs) s = shiftSamples bs (shiftSample v s) := by
      simp [shiftSamples]
    rw [e, IH (shiftSample v s) (rolChain_valid s (v % 2)) (fun x hx => hb x (by simp [hx]))]
    rw [show shiftSample v s = rolChain (v % 2) s from rfl, rolChain_length,
      rolChain_toNat s (v % 2) hv (by omega)]
    have hv2 : v % 2 = v := by omega
    rw [hv2]
    set T := bytesToNat s
    set M := (2:Nat) ^ (8 * s.length) with hM
    set B := bitsToNat bs
    have hcons : bitsToNat (v :: bs) = v * 2 ^ bs.length + B := by
      have h0 : bitsToNat (v :: bs) = bs.foldl (fun a b => 2 * a + b) v := by
        simp [bitsToNat]
      rw [h0, bitsFold_acc bs v]
    have hcong : ((2 * T + v) % M * 2 ^ bs.length + B) % M
        = ((2 * T + v) * 2 ^ bs.length + B) % M :=
      Nat.ModEq.add_right B (Nat.ModEq.mul_right (2 ^ bs.length) (Nat.mod_modEq _ M))
    rw [hcong, hcons]
    congr 1
    simp only [List.length_cons]
    ring

theorem xorPopCount_self : ∀ (p : List Nat), xorPopCount p p = 0 := by
  intro p
  induction p with
  | nil => rfl
  | cons a rest IH =>
    have e : xorPopCount (a :: rest) (a :: rest)
        = popCount (a ^^^ a) + xorPopCount rest rest := by
      simp [xorPopCount]
    rw [e, IH, Nat.xor_self]
    rfl

/-- C3: for every 10-byte register state and 10-byte template, `score`
returns 80 minus the popcount of their byte-wise XOR (hence lies in
`[0, 80]`), and after shifting the 80 bits of a template (head end first)
into the register via `shiftSample`, scoring against that same template
returns exactly 80, whatever the prior register contents. -/
theorem score_popcount_and_selfmatch (s p : List Nat)
    (hs : s.length = 10) (hp : p.length = 10)
    (hsv : bytesValid s) (hpv : bytesValid p) :
    (score s p = 80 - xorPopCount s p ∧ xorPopCount s p ≤ 80) ∧
    score (shiftSamples (headToTailBits p) s) p = 80 := by
  have h1 := score_add_xorPopCount s p (by rw [hs, hp]) hsv hpv
  rw [hs] at h1
  norm_num at h1
  refine ⟨⟨by omega, by omega⟩, ?_⟩
  have hbits := headToTailBits_spec p hpv
  have hlen80 : (headToTailBits p).length = 80 := by rw [hbits.2.1, hp]
  have hvalid2 := shiftSamples_valid (headToTailBits p) s hsv
  have hlen2 : (shiftSamples (headToTailBits p) s).length = s.length :=
    shiftSamples_length _ _
  have htn := shiftSamples_toNat (headToTailBits p) s hsv hbits.2.2
  rw [hlen80, hbits.1, hs, show (8:Nat) * 10 = 80 from rfl] at htn
  have hplt : bytesToNat p < 2 ^ 80 := by
    have := bytesToNat_lt p hpv
    rw [hp, show (8:Nat) * 10 = 80 from rfl] at this
    exact this
  have hmod : (bytesToNat s * 2 ^ 80 + bytesToNat p) % 2 ^ 80 = bytesToNat p := by
    rw [Nat.mul_comm (bytesToNat s) (2 ^ 80), Nat.mul_add_mod]
    exact Nat.mod_eq_of_lt hplt
  rw [hmod] at htn
  have heq : shiftSamples (headToTailBits p) s = p :=
    bytesToNat_inj _ _ hvalid2 hpv (by rw [hlen2, hs, hp]) htn
  rw [heq]
  have h2 := score_add_xorPopCount p p rfl hpv hpv
  have hz : xorPopCount p p = 0 := xorPopCount_self p
  rw [hp] at h2
  norm_num at h2
  omega

/-- C3 witness: instantiation at the all-zero register and the ZERO
template. -/
theorem score_popcount_and_selfmatch_witness :
    (score (List.replicate 10 0) PATTERN_ZERO
        = 80 - xorPopCount (List.replicate 10 0) PATTERN_ZERO ∧
      xorPopCount (List.replicate 10 0) PATTERN_ZERO ≤ 80) ∧
    score (shiftSamples (headToTailBits PATTERN_ZERO) (List.replicate 10 0))
        PATTERN_ZERO = 80 :=
  score_popcount_and_selfmatch (List.replicate 10 0) PATTERN_ZERO
    (by decide) (by decide) (by decide) (by decide)


/-! ## Claim C4: adjustTickInterval bounds -/

/-- C4 counterexample: `adjustTickInterval` applies no clamp.  Starting
from the nominal parameters `(33333, 21)` (scaled count 2133333), two
successive invocations with `(localTicks, apparentTicks) = (1005, 1095)`
— arguments satisfying the call-site guard `localTicks > 1000` and
`|localTicks - apparentTicks| > 15` — leave the scaled count below
`0.95 * 2133333`. -/
theorem adjustTickInterval_no_clamp :
    20 * ((adjustTickInterval (adjustTickInterval 33333 21 1005 1095).1
            (adjustTickInterval 33333 21 1005 1095).2 1005 1095).1 * 64 +
          (adjustTickInterval (adjustTickInterval 33333 21 1005 1095).1
            (adjustTickInterval 33333 21 1005 1095).2 1005 1095).2) <
      19 * (33333 * 64 + 21) := by
  have e1 : muldiv 2133333 1005 1095 = 1957990 := by
    rw [muldiv_eq_div _ _ _ (by norm_num) (by norm_num) (by norm_num [U32])]
  have hp1 : adjustTickInterval 33333 21 1005 1095 = (31963, 29) := by
    simp only [adjustTickInterval]
    rw [show (33333 * 64 + 21) % U32 = 2133333 from by norm_num [U32]]
    rw [e1]
    norm_num [U32, U16]
  have e2 : muldiv 2045661 1005 1095 = 1877524 := by
    rw [muldiv_eq_div _ _ _ (by norm_num) (by norm_num) (by norm_num [U32])]
  have hp2 : adjustTickInterval 31963 29 1005 1095 = (30649, 56) := by
    simp only [adjustTickInterval]
    rw [show (31963 * 64 + 29) % U32 = 2045661 from by norm_num [U32]]
    rw [e2]
    norm_num [U32, U16]
  rw [hp1]
  norm_num [hp2]

/-- C4 amended: `adjustTickInterval` performs no clamping against the
nominal value; what holds instead is a per-call relative bound: whenever
the two tick counts are within a factor `11/10` of each other
(`11*|localTicks − apparentTicks| ≤ localTicks`, true of all invocations
the SYNC tracking loop can produce), the updated scaled count
`cycles*64 + frac` stays within ±5% of its *previous* value; deviations
from nominal can therefore accumulate across calls without bound. -/
theorem adjustTickInterval_relative_bound (cycles frac localTicks apparentTicks : Nat)
    (hcy : cycles < U16) (hfr : frac < U8)
    (hS120 : 120 ≤ cycles * 64 + frac) (hSmax : cycles * 64 + frac ≤ 3900000)
    (hA : 0 < apparentTicks) (hA31 : apparentTicks ≤ 2 ^ 31)
    (hd1 : 11 * (localTicks - apparentTicks) ≤ localTicks)
    (hd2 : 11 * (apparentTicks - localTicks) ≤ localTicks) :
    19 * (cycles * 64 + frac) ≤
      20 * ((adjustTickInterval cycles frac localTicks apparentTicks).1 * 64 +
            (adjustTickInterval cycles frac localTicks apparentTicks).2) ∧
    20 * ((adjustTickInterval cycles frac localTicks apparentTicks).1 * 64 +
          (adjustTickInterval cycles frac localTicks apparentTicks).2) ≤
      21 * (cycles * 64 + frac) := by
  set S := cycles * 64 + frac with hSdef
  set L := localTicks
  set A := apparentTicks
  have h10 : 10 * L ≤ 11 * A := by
    rcases Nat.le_total A L with h | h <;> omega
  have h12 : 11 * A ≤ 12 * L := by
    rcases Nat.le_total A L with h | h <;> omega
  have hSU32 : S < U32 := by
    have : U32 = 4294967296 := rfl
    omega
  have hSL : S * L < U32 * A := by
    have h1 : 10 * (S * L) = S * (10 * L) := by ring
    have h2 : S * (10 * L) ≤ S * (11 * A) := Nat.mul_le_mul_left S h10
    have h3 : S * (11 * A) = (11 * S) * A := by ring
    have h4 : (11 * S) * A ≤ 42900000 * A := Nat.mul_le_mul_right A (by omega)
    have h5 : 42900000 * A < (10 * U32) * A :=
      (Nat.mul_lt_mul_right hA).mpr (by norm_num [U32])
    have h6 : (10 * U32) * A = 10 * (U32 * A) := by ring
    have : 10 * (S * L) < 10 * (U32 * A) := by omega
    omega
  have hX : muldiv S L A = S * L / A := muldiv_eq_div S L A hA hA31 hSL
  have hdm := Nat.div_add_mod (S * L) A
  set X := S * L / A with hXdef
  have hmlt : (S * L) % A < A := Nat.mod_lt _ hA
  have hXA : X * A ≤ S * L := by
    rw [hXdef]
    exact Nat.div_mul_le_self (S * L) A
  have hXA2 : S * L < (X + 1) * A := by
    have he : (X + 1) * A = A * X + A := by ring
    rw [he, ← hdm]
    exact Nat.add_lt_add_left hmlt _
  have hXup : 10 * X ≤ 11 * S := by
    have h4 : (10 * X) * A ≤ (11 * S) * A := by
      calc (10 * X) * A = 10 * (X * A) := by ring
        _ ≤ 10 * (S * L) := Nat.mul_le_mul_left 10 hXA
        _ = S * (10 * L) := by ring
        _ ≤ S * (11 * A) := Nat.mul_le_mul_left S h10
        _ = (11 * S) * A := by ring
    exact Nat.le_of_mul_le_mul_right h4 hA
  have hXlo : 11 * S ≤ 12 * X + 12 := by
    have h4 : (11 * S) * A < (12 * (X + 1)) * A := by
      calc (11 * S) * A = S * (11 * A) := by ring
        _ ≤ S * (12 * L) := Nat.mul_le_mul_left S h12
        _ = 12 * (S * L) := by ring
        _ < 12 * ((X + 1) * A) := (Nat.mul_lt_mul_left (by norm_num)).mpr hXA2
        _ = (12 * (X + 1)) * A := by ring
    have := Nat.lt_of_mul_lt_mul_right h4
    omega
  have hXsmall : X ≤ 4290000 := by omega
  have hXS : (X + S) % U32 = X + S := by
    apply Nat.mod_eq_of_lt
    have : U32 = 4294967296 := rfl
    omega
  have hP : adjustTickInterval cycles frac L A
      = ((X + S) / 2 / 64 % U16, (X + S) / 2 % 64) := by
    unfold adjustTickInterval
    rw [← hSdef, Nat.mod_eq_of_lt hSU32]
    dsimp only
    rw [hX, hXS]
  rw [hP]
  set F := (X + S) / 2 with hFdef
  have hF2 : 2 * F ≤ X + S ∧ X + S ≤ 2 * F + 1 := by
    constructor <;> omega
  have hFsmall : F ≤ 4095000 := by omega
  have hFmod : F / 64 % U16 * 64 + F % 64 = F := by
    rw [show U16 = 65536 from rfl]
    omega
  rw [hFmod]
  omega

/-- C4 witness: instantiation at the nominal parameters with the
guard-compatible invocation `(1005, 1095)`. -/
theorem adjustTickInterval_relative_bound_witness :
    19 * (33333 * 64 + 21) ≤
      20 * ((adjustTickInterval 33333 21 1005 1095).1 * 64 +
            (adjustTickInterval 33333 21 1005 1095).2) ∧
    20 * ((adjustTickInterval 33333 21 1005 1095).1 * 64 +
          (adjustTickInterval 33333 21 1005 1095).2) ≤
      21 * (33333 * 64 + 21) :=
  adjustTickInterval_relative_bound 33333 21 1005 1095 (by norm_num [U16])
    (by norm_num [U8]) (by norm_num) (by norm_num) (by norm_num)
    (by norm_num) (by norm_num) (by norm_num)

/-! ## Claim C7: the ZERO correlation template -/

/-- C7 counterexample: read head-to-tail, `PATTERN_ZERO` is not
10 zeros, 12 ones, 48 zeros and a tail of 10 zeros; its tail bit
(the most recent position) is 1, not 0. -/
theorem pattern_zero_not_tail_zeros :
    headToTailBits PATTERN_ZERO ≠
      List.replicate 10 0 ++ List.replicate 12 1 ++
      List.replicate 48 0 ++ List.replicate 10 0 ∧
    (headToTailBits PATTERN_ZERO).getD 79 0 = 1 := by
  constructor
  · decide
  · decide

/-- C7 amended: read from head (oldest bit) to tail (most recent bit),
`PATTERN_ZERO` holds 10 zeros, then 12 ones, then 48 zeros, then a tail
of 10 ones. -/
theorem pattern_zero_layout :
    headToTailBits PATTERN_ZERO =
      List.replicate 10 0 ++ List.replicate 12 1 ++
      List.replicate 48 0 ++ List.replicate 10 1 := by
  decide

/-! ## Claim C6: tickTime rollovers -/

/-- C6 (code bug): ticking the last instant of day 364 of a non-leap year
rolls over to day 1 of the next year, so day 365 never occurs: the strict
comparison `tod_day < year_length` wraps one day early.  The other
rollovers at this instant (ticks, seconds, minutes, hours) behave as the
claim states. -/
theorem tickTime_skips_last_day_of_year :
    (tickTime { ticks := 59, seconds := 59, minutes := 59, hours := 23,
                day := 364, year := 2017, isleapminute := false,
                isleapyear := false, fix := true,
                secondChanged := false, minuteChanged := false }).1 =
      { ticks := 0, seconds := 0, minutes := 0, hours := 0,
        day := 1, year := 2018, isleapminute := false,
        isleapyear := false, fix := true,
        secondChanged := true, minuteChanged := true } := by
  decide

/-! ## Claim C8: configureFromMemory -/

/-- C8 counterexample: a version-2 record whose scaled count 1000000 is far
outside ±5% of the nominal 2133333 (indeed `20·1000000 < 19·2133333`) does
not leave the compile-time defaults `(33333, 21)`: the range check is
commented out in the source. -/
theorem configureFromMemory_accepts_out_of_range :
    20 * 1000000 < 19 * 2133333 ∧
    configureFromMemory 2 1000000 ≠ (33333, 21) ∧
    configureFromMemory 2 1000000 = (15625, 0) := by
  refine ⟨by norm_num, by decide, by decide⟩

/-- C8 amended: only the version field is validated.  A record whose
version is not 1 or 2 leaves the compile-time defaults `(33333, 21)`;
any version-1 record initializes the clock parameters so that the scaled
count `cycles*64 + frac` equals four times the stored count (denominator
conversion 16 → 64), and any version-2 record initializes them so the
scaled count equals the stored count — regardless of range (for stored
counts small enough not to truncate in the 16-bit cycles field). -/
theorem configureFromMemory_version_only (v s : Nat) (hv : v < U8) (hs : s < U32) :
    ((v = 0 ∨ 2 < v) → configureFromMemory v s = (33333, 21)) ∧
    (v = 1 → s < 2 ^ 20 →
      (configureFromMemory v s).1 * 64 + (configureFromMemory v s).2 = 4 * s) ∧
    (v = 2 → s < 2 ^ 22 →
      (configureFromMemory v s).1 * 64 + (configureFromMemory v s).2 = s) := by
  refine ⟨fun h => ?_, fun h hs20 => ?_, fun h hs22 => ?_⟩
  · unfold configureFromMemory
    rw [if_pos]
    omega
  · subst h
    unfold configureFromMemory U16 U8
    norm_num
    omega
  · subst h
    unfold configureFromMemory U16 U8
    norm_num
    omega

/-- C8 witness: instantiation at the out-of-range version-2 record
`(2, 1000000)`. -/
theorem configureFromMemory_version_only_witness :
    (configureFromMemory 2 1000000).1 * 64 + (configureFromMemory 2 1000000).2
      = 1000000 :=
  (configureFromMemory_version_only 2 1000000 (by norm_num [U8])
    (by norm_num [U32])).2.2 rfl (by norm_num)

/-! ## Claims C5, C9, C10: state machine, tick actions, setMode -/

/-- Helper: `setMode` in each direction written out as a record update. -/
theorem setMode_equations (s : ClockState) :
    setMode MODE_SEEK s =
      { s with
          bitSeek_detectedSymbolCount := 0
          mode := MODE_SEEK
          mode_changed := true } ∧
    setMode MODE_SYNC s =
      { s with
          bitSync_peekCountdown := 60
          bitSync_parametersSaved := false
          bitSync_missedSymbolCount := 0
          mode := MODE_SYNC
          mode_changed := true } := by
  constructor
  · simp [setMode, MODE_SEEK, MODE_SYNC]
  · simp [setMode, MODE_SEEK, MODE_SYNC]

/-- C9 amended: the per-tick interrupt sequence never writes the byte
store (EEPROM writes happen only in the main loop), but it does push the
pixel strip on every tick (`pixels.show()` in `tick()`), and on some
ticks (the display-blanking branch of `tickTime` when there is no fix)
it also transfers bytes to the display shift register. -/
theorem tick_actions (s : ClockState) (input : Nat) :
    Action.eepromWrite ∉ (tick s input).2 ∧
    Action.pixelShow ∈ (tick s input).2 ∧
    ((tick s input).2 = [Action.pixelShow] ∨
     (tick s input).2 = [Action.pixelShow, Action.spiTransfer]) := by
  unfold tick
  dsimp only
  split <;> simp

/-- Helper: `bitSync` zeroes the accumulated offset and the tick counter
exactly when it invokes `adjustTickInterval` (second component true), and
otherwise leaves the tick counter unchanged. -/
theorem bitSync_zeroing (s : ClockState) :
    ((bitSync s).2 = true → (bitSync s).1.bitSync_accumulatedOffset = 0 ∧
      (bitSync s).1.bitSync_localTicksSinceSync = 0) ∧
    ((bitSync s).2 = false →
      (bitSync s).1.bitSync_localTicksSinceSync = s.bitSync_localTicksSinceSync) := by
  unfold bitSync
  dsimp only
  repeat' split
  all_goals simp [setMode, MODE_SEEK]

/-- C5: on a peek tick in SYNC mode (countdown reaching 0) with the miss
counter at most 5 (its reachable range), a peek finding no board above
the threshold pushes `'-'` and increments the miss counter, returning to
SEEK exactly when the count reaches 6 and never before; a successful
detection resets the miss counter to 0 and stays in SYNC. -/
theorem bitSync_missLogic (s : ClockState) (hmode : s.mode = MODE_SYNC)
    (hcd : s.bitSync_peekCountdown = 1) (hm : s.bitSync_missedSymbolCount ≤ 5) :
    ((s.sb_zero.peakValue ≤ scoreThreshold ∧ s.sb_one.peakValue ≤ scoreThreshold ∧
      s.sb_marker.peakValue ≤ scoreThreshold) →
      ((bitSync s).1.symbolStream = (shiftSymbol '-' s.symbolStream).1 ∧
       (bitSync s).1.bitSync_missedSymbolCount = s.bitSync_missedSymbolCount + 1 ∧
       ((bitSync s).1.mode = MODE_SEEK ↔ s.bitSync_missedSymbolCount + 1 = 6) ∧
       (s.bitSync_missedSymbolCount + 1 ≠ 6 → (bitSync s).1.mode = MODE_SYNC))) ∧
    ((s.sb_zero.peakValue > scoreThreshold ∨ s.sb_one.peakValue > scoreThreshold ∨
      s.sb_marker.peakValue > scoreThreshold) →
      ((bitSync s).1.bitSync_missedSymbolCount = 0 ∧
       (bitSync s).1.mode = MODE_SYNC)) := by
  have hmw : (s.bitSync_missedSymbolCount + 1) % U8 = s.bitSync_missedSymbolCount + 1 := by
    rw [show U8 = 256 from rfl]
    omega
  constructor
  · rintro ⟨h0, h1, hM⟩
    have hn0 : ¬ (s.sb_zero.peakValue > scoreThreshold) := by omega
    have hn1 : ¬ (s.sb_one.peakValue > scoreThreshold) := by omega
    have hnM : ¬ (s.sb_marker.peakValue > scoreThreshold) := by omega
    unfold bitSync
    simp only [hcd, hn0, hn1, hnM, hmw, if_false, if_neg]
    norm_num
    by_cases h6 : s.bitSync_missedSymbolCount + 1 = 6
    · simp [bitSync_missedSymbolThreshold, h6, setMode, MODE_SEEK, MODE_SYNC]
    · simp [bitSync_missedSymbolThreshold, h6, hmode, MODE_SEEK, MODE_SYNC]
  · intro hdisj
    unfold bitSync
    simp only [hcd]
    norm_num
    by_cases h0 : s.sb_zero.peakValue > scoreThreshold
    · simp only [h0, if_true]
      repeat' split
      all_goals simp [hmode, MODE_SEEK, MODE_SYNC]
    · by_cases h1 : s.sb_one.peakValue > scoreThreshold
      · simp only [h0, h1, if_false, if_true]
        repeat' split
        all_goals simp [hmode, MODE_SEEK, MODE_SYNC]
      · have hM : s.sb_marker.peakValue > scoreThreshold := by tauto
        simp only [h0, h1, hM, if_false, if_true]
        repeat' split
        all_goals simp [hmode, MODE_SEEK, MODE_SYNC]

/-- C9 counterexample: already on the very first tick from the startup
state, the interrupt sequence pushes the pixel strip (`pixels.show()` is
called unconditionally inside `tick()`), contradicting the claim that no
tick performs UI rendering. -/
theorem tick_pushes_pixels_counterexample :
    Action.pixelShow ∈ (tick initState 1).2 := by
  decide

/-- C5 witness: instantiation at a concrete SYNC-mode peek state whose
scoreboards are all below threshold. -/
theorem bitSync_missLogic_witness :
    (bitSync syncPeekState).1.bitSync_missedSymbolCount
        = syncPeekState.bitSync_missedSymbolCount + 1 ∧
    ((bitSync syncPeekState).1.mode = MODE_SEEK ↔
      syncPeekState.bitSync_missedSymbolCount + 1 = 6) := by
  have h := (bitSync_missLogic syncPeekState (by decide) (by decide) (by decide)).1
    (by refine ⟨?_, ?_, ?_⟩ <;> decide)
  exact ⟨h.2.1, h.2.2.1⟩

/-- C10: `setMode` in either direction leaves `bitSync_accumulatedOffset`
and `bitSync_localTicksSinceSync` (and everything except the listed
per-mode counters, the mode and the mode-changed flag) unchanged, and the
two drift fields are zeroed by `bitSync` exactly when a successful
`adjustTickInterval` invocation happens. -/
theorem setMode_preserves_drift_state (s : ClockState) :
    (setMode MODE_SEEK s =
      { s with
          bitSeek_detectedSymbolCount := 0
          mode := MODE_SEEK
          mode_changed := true }) ∧
    (setMode MODE_SYNC s =
      { s with
          bitSync_peekCountdown := 60
          bitSync_parametersSaved := false
          bitSync_missedSymbolCount := 0
          mode := MODE_SYNC
          mode_changed := true }) ∧
    ((bitSync s).2 = true → (bitSync s).1.bitSync_accumulatedOffset = 0 ∧
      (bitSync s).1.bitSync_localTicksSinceSync = 0) ∧
    ((bitSync s).2 = false →
      (bitSync s).1.bitSync_localTicksSinceSync = s.bitSync_localTicksSinceSync) :=
  ⟨(setMode_equations s).1, (setMode_equations s).2,
   (bitSync_zeroing s).1, (bitSync_zeroing s).2⟩

/-- C10 witness: instantiation at the startup state (a non-adjusting
tick) and at a `setMode(MODE_SEEK)` call. -/
theorem setMode_preserves_drift_state_witness :
    (bitSync initState).1.bitSync_localTicksSinceSync
        = initState.bitSync_localTicksSinceSync ∧
    (setMode MODE_SEEK initState).bitSync_accumulatedOffset
        = initState.bitSync_accumulatedOffset := by
  refine ⟨(setMode_preserves_drift_state initState).2.2.2 (by decide), ?_⟩
  rw [(setMode_preserves_drift_state initState).1]

end NixieClock
